import Mathlib

/-!
Verification of the highlight scoring and continuous-learning pipeline of the
IA_KICK repository (src/kick_clip_generator.py, src/model_trainer.py,
src/clip_manager.py).  Python floats are modelled as exact rationals, Python
lists as Lean lists, and the external scikit-learn estimators (scaler +
gradient-boosted ensemble) as opaque function parameters: a fitted estimator
is a function from feature vectors to scores, and a fitting call that may
raise a numerical exception is a function returning an Option (none models
the raised exception).
-/

/-- Data model of Highlight (kick_clip_generator.py, lines 44-55): a detected
highlight segment with start/end time, score, modality tag, the feature
mapping it was scored from, and a creation timestamp. -/
structure Highlight where
  start_time : ℚ
  end_time : ℚ
  score : ℚ
  type : String
  features : List (String × ℚ)
  timestamp : String
  deriving DecidableEq

/-- Score combination from KickClipGenerator.process_stream (lines 822 and
841): combined = heuristic*0.6 + ml*0.4 when the ml score is positive,
otherwise the heuristic score alone.  The same expression is used for the
audio and the video modality. -/
def combinedScore (heuristic ml : ℚ) : ℚ :=
  if 0 < ml then heuristic * (6/10) + ml * (4/10) else heuristic

/-- Data model of ClipRecord (clip_manager.py, lines 18-50); the fields not
touched by update_rating are kept to show records are rewritten in place.
Timestamps (rated_at) are modelled as abstract clock values. -/
structure ClipRecord where
  id : ℕ
  filename : String
  start_time : ℚ
  end_time : ℚ
  score : ℚ
  clip_type : String
  rating : Option ℤ
  rated_at : Option ℕ
  deriving DecidableEq

/-- ClipDatabase.update_rating (clip_manager.py, lines 128-152): rejects a
rating outside 1..5 before touching the store; otherwise runs the SQL UPDATE
(set rating and rated_at on every row whose id matches) and reports whether
any row was updated (cursor.rowcount > 0).  The parameter now models
datetime.now(). -/
def update_rating (now : ℕ) (db : List ClipRecord) (clip_id : ℕ) (rating : ℤ) :
    Bool × List ClipRecord :=
  if ¬ (1 ≤ rating ∧ rating ≤ 5) then (false, db)
  else
    (db.any fun c => c.id == clip_id,
     db.map fun c =>
       if c.id = clip_id then { c with rating := some rating, rated_at := some now } else c)

/-- Concrete two-record store used to witness the update_rating theorem. -/
def dbW : List ClipRecord :=
  [{ id := 1, filename := "a.mp4", start_time := 0, end_time := 30, score := 5,
     clip_type := "audio", rating := none, rated_at := none },
   { id := 2, filename := "b.mp4", start_time := 40, end_time := 70, score := 3,
     clip_type := "video", rating := some 2, rated_at := some 1 }]

/-- C10: a rating outside 1..5 yields False and leaves the store untouched;
a rating in 1..5 rewrites exactly the rows whose id matches (setting rating
and rated_at), keeps every other row and the record count unchanged, and
returns True exactly when such a row exists (hence False for a missing id). -/
theorem update_rating_spec (now : ℕ) (db : List ClipRecord) (clip_id : ℕ) (r : ℤ) :
    (¬ (1 ≤ r ∧ r ≤ 5) → update_rating now db clip_id r = (false, db)) ∧
    (1 ≤ r → r ≤ 5 →
      (update_rating now db clip_id r).2.length = db.length ∧
      (∀ i : ℕ, (update_rating now db clip_id r).2[i]? =
        (db[i]?).map fun c =>
          if c.id = clip_id then { c with rating := some r, rated_at := some now } else c) ∧
      ((update_rating now db clip_id r).1 = true ↔ ∃ c ∈ db, c.id = clip_id)) := by
  constructor
  · intro h
    simp [update_rating, h]
  · intro h1 h5
    have hval : ¬ ¬ (1 ≤ r ∧ r ≤ 5) := by exact not_not_intro ⟨h1, h5⟩
    refine ⟨?_, ?_, ?_⟩
    · simp [update_rating, hval]
    · intro i
      simp [update_rating, hval, List.getElem?_map]
    · simp [update_rating, hval, List.any_eq_true]

/-- Witness for update_rating_spec at a concrete store: rating 4 applied to
clip id 1 of dbW rewrites the first record in place and returns True. -/
theorem update_rating_spec_witness :
    (update_rating 7 dbW 1 4).2.length = dbW.length ∧
    (update_rating 7 dbW 1 4).2[0]? =
      (dbW[0]?).map (fun c =>
        if c.id = 1 then { c with rating := some 4, rated_at := some 7 } else c) ∧
    (update_rating 7 dbW 1 4).1 = true :=
  ⟨((update_rating_spec 7 dbW 1 4).2 (by norm_num) (by norm_num)).1,
   ((update_rating_spec 7 dbW 1 4).2 (by norm_num) (by norm_num)).2.1 0,
   ((update_rating_spec 7 dbW 1 4).2 (by norm_num) (by norm_num)).2.2.mpr
     ⟨{ id := 1, filename := "a.mp4", start_time := 0, end_time := 30, score := 5,
        clip_type := "audio", rating := none, rated_at := none },
      by simp [dbW], rfl⟩⟩

/-- C3: the combined candidate score is 0.6*h + 0.4*m when the (already
floor-clamped) model prediction m is positive, and exactly the heuristic h
otherwise; in particular h=2, m=0 gives exactly 2 and h=2, m=1 gives exactly
8/5 = 1.6. -/
theorem combinedScore_spec (h m : ℚ) :
    (0 < m → combinedScore h m = (6/10) * h + (4/10) * m) ∧
    (¬ 0 < m → combinedScore h m = h) ∧
    combinedScore 2 0 = 2 ∧ combinedScore 2 1 = 8/5 := by
  refine ⟨fun hm => ?_, fun hm => ?_, ?_, ?_⟩
  · simp only [combinedScore, if_pos hm]; ring
  · simp only [combinedScore, if_neg hm]
  · norm_num [combinedScore]
  · norm_num [combinedScore]

/-- Witness for combinedScore_spec at h = 2, m = 1 and m = 0. -/
theorem combinedScore_spec_witness :
    combinedScore 2 1 = (6/10) * 2 + (4/10) * 1 ∧ combinedScore 2 0 = 2 :=
  ⟨by rw [(combinedScore_spec 2 1).1 (by norm_num)],
   ((combinedScore_spec 2 0).2.2).1⟩

/-- Key-based comparison modelling Python's stable sorted(key=k): the sort
relation holds when the key of the first element is at most the key of the
second.  Descending sorts (reverse=True) are modelled by negating the key,
which preserves Python's stability on equal keys. -/
def keyLE (k : Highlight → ℚ) (a b : Highlight) : Prop := k a ≤ k b

instance (k : Highlight → ℚ) : DecidableRel (keyLE k) :=
  fun a b => inferInstanceAs (Decidable (k a ≤ k b))

instance (k : Highlight → ℚ) : IsTotal Highlight (keyLE k) :=
  ⟨fun a b => le_total (k a) (k b)⟩

instance (k : Highlight → ℚ) : IsTrans Highlight (keyLE k) :=
  ⟨fun _ _ _ => le_trans⟩

/-- Sort key for sorted(highlights, key=lambda x: x.score, reverse=True)
(kick_clip_generator.py line 888), negated to express the descending order. -/
def negScore (h : Highlight) : ℚ := -h.score

/-- Sort key for sorted(filtered, key=lambda x: x.start_time) (line 906). -/
def startKey (h : Highlight) : ℚ := h.start_time

/-- Stable descending sort by score (line 888). -/
def sortByScoreDesc (l : List Highlight) : List Highlight :=
  l.insertionSort (keyLE negScore)

/-- Stable ascending sort by start time (line 906). -/
def sortByStart (l : List Highlight) : List Highlight :=
  l.insertionSort (keyLE startKey)

/-- Python's builtin abs on a rational value. -/
def pyAbs (x : ℚ) : ℚ := if x < 0 then -x else x

theorem pyAbs_eq_abs (x : ℚ) : pyAbs x = |x| := by
  unfold pyAbs
  split
  · exact (abs_of_neg (by assumption)).symm
  · exact (abs_of_nonneg (le_of_not_lt (by assumption))).symm

/-- Overlap test of _filter_highlights (lines 893-898): a candidate is
rejected when its start time is within min_gap of an accepted candidate. -/
def overlapsAny (min_gap : ℚ) (selected : List Highlight) (h : Highlight) : Bool :=
  selected.any fun s => decide (pyAbs (h.start_time - s.start_time) < min_gap)

/-- Greedy acceptance loop of _filter_highlights (lines 891-904): walk the
score-sorted candidates, append each non-overlapping one to the accepted
list, and stop as soon as the accepted list reaches top_n entries. -/
def selectLoop (min_gap : ℚ) (top_n : ℕ) :
    List Highlight → List Highlight → List Highlight
  | acc, [] => acc
  | acc, h :: rest =>
    let acc' := if overlapsAny min_gap acc h then acc else acc ++ [h]
    if top_n ≤ acc'.length then acc' else selectLoop min_gap top_n acc' rest

/-- Effective cap on accepted highlights (lines 883-885): max_clips, when
given, lowers top_n. -/
def effectiveTopN (top_n : ℕ) (max_clips : Option ℕ) : ℕ :=
  match max_clips with
  | some m => min top_n m
  | none => top_n

/-- KickClipGenerator._filter_highlights (lines 878-906): empty input yields
empty output; otherwise sort by score descending, greedily drop overlaps and
cap at the effective top_n, then re-sort the accepted list by start time. -/
def filter_highlights (min_gap : ℚ) (top_n : ℕ) (max_clips : Option ℕ)
    (highlights : List Highlight) : List Highlight :=
  if highlights = [] then []
  else
    sortByStart
      (selectLoop min_gap (effectiveTopN top_n max_clips) [] (sortByScoreDesc highlights))

/-- Two highlights respect the configured minimum start-time gap. -/
def GapOK (min_gap : ℚ) (a b : Highlight) : Prop :=
  min_gap ≤ |a.start_time - b.start_time|

theorem gapOK_symm {g : ℚ} {a b : Highlight} (h : GapOK g a b) : GapOK g b a := by
  simpa [GapOK, abs_sub_comm] using h

theorem overlapsAny_eq_false {g : ℚ} {acc : List Highlight} {h : Highlight} :
    overlapsAny g acc h = false ↔ ∀ s ∈ acc, GapOK g h s := by
  simp [overlapsAny, GapOK, not_lt, pyAbs_eq_abs]

theorem selectLoop_pairwise (g : ℚ) (tn : ℕ) :
    ∀ (l acc : List Highlight), acc.Pairwise (GapOK g) →
      (selectLoop g tn acc l).Pairwise (GapOK g) := by
  intro l
  induction l with
  | nil => intro acc hacc; simpa [selectLoop] using hacc
  | cons h rest ih =>
    intro acc hacc
    have hstep : ∀ acc₂ : List Highlight, acc₂.Pairwise (GapOK g) →
        (if tn ≤ acc₂.length then acc₂ else selectLoop g tn acc₂ rest).Pairwise (GapOK g) := by
      intro acc₂ h₂
      split
      · exact h₂
      · exact ih acc₂ h₂
    simp only [selectLoop]
    by_cases hov : overlapsAny g acc h
    · simpa [hov] using hstep acc hacc
    · have hno : overlapsAny g acc h = false := by simpa using hov
      have happ : (acc ++ [h]).Pairwise (GapOK g) := by
        rw [List.pairwise_append]
        refine ⟨hacc, List.pairwise_singleton _ _, ?_⟩
        intro a ha b hb
        rw [List.mem_singleton] at hb
        subst hb
        exact gapOK_symm (overlapsAny_eq_false.mp hno a ha)
      simpa [hno] using hstep (acc ++ [h]) happ

theorem selectLoop_length_le (g : ℚ) (tn : ℕ) :
    ∀ (l acc : List Highlight), acc.length < tn →
      (selectLoop g tn acc l).length ≤ tn := by
  intro l
  induction l with
  | nil => intro acc hacc; simpa [selectLoop] using le_of_lt hacc
  | cons h rest ih =>
    intro acc hacc
    have hstep : ∀ acc₂ : List Highlight, acc₂.length ≤ tn →
        (if tn ≤ acc₂.length then acc₂ else selectLoop g tn acc₂ rest).length ≤ tn := by
      intro acc₂ h₂
      split
      · exact h₂
      · exact ih acc₂ (lt_of_not_le (by assumption))
    simp only [selectLoop]
    by_cases hov : overlapsAny g acc h
    · simpa [hov] using hstep acc (le_of_lt hacc)
    · have hno : overlapsAny g acc h = false := by simpa using hov
      have hlen : (acc ++ [h]).length ≤ tn := by
        simpa [List.length_append] using Nat.succ_le_of_lt hacc
      simpa [hno] using hstep (acc ++ [h]) hlen

theorem selectLoop_sublist (g : ℚ) (tn : ℕ) :
    ∀ (l acc : List Highlight), (selectLoop g tn acc l).Sublist (acc ++ l) := by
  intro l
  induction l with
  | nil => intro acc; simp [selectLoop]
  | cons h rest ih =>
    intro acc
    simp only [selectLoop]
    by_cases hov : overlapsAny g acc h
    · simp only [hov, if_true]
      split
      · exact (List.sublist_append_left acc (h :: rest))
      · exact (ih acc).trans
          (List.Sublist.append_left (List.sublist_cons_self h rest) acc)
    · have hno : overlapsAny g acc h = false := by simpa using hov
      simp only [hno, Bool.false_eq_true, if_false]
      have hrw : acc ++ h :: rest = (acc ++ [h]) ++ rest := by
        simp [List.append_assoc]
      split
      · rw [hrw]
        exact List.sublist_append_left (acc ++ [h]) rest
      · rw [hrw]
        exact ih (acc ++ [h])

theorem selectLoop_all (g : ℚ) (tn : ℕ) :
    ∀ (l acc : List Highlight), (acc ++ l).Pairwise (GapOK g) →
      acc.length + l.length ≤ tn → selectLoop g tn acc l = acc ++ l := by
  intro l
  induction l with
  | nil => intro acc _ _; simp [selectLoop]
  | cons h rest ih =>
    intro acc hp hlen
    have hno : overlapsAny g acc h = false := by
      rw [overlapsAny_eq_false]
      intro s hs
      have := (List.pairwise_append.mp hp).2.2 s hs h (List.mem_cons_self h rest)
      exact gapOK_symm this
    have hrw : acc ++ h :: rest = (acc ++ [h]) ++ rest := by
      simp [List.append_assoc]
    simp only [selectLoop, hno, Bool.false_eq_true, if_false]
    by_cases hstop : tn ≤ (acc ++ [h]).length
    · have hrest : rest = [] := by
        rw [List.length_append, List.length_singleton] at hstop
        rw [List.length_cons] at hlen
        have : rest.length = 0 := by omega
        exact List.eq_nil_of_length_eq_zero this
      subst hrest
      rw [if_pos hstop]
    · rw [if_neg hstop, hrw]
      apply ih (acc ++ [h])
      · rw [← hrw]; exact hp
      · rw [List.length_append, List.length_singleton]
        rw [List.length_cons] at hlen
        omega

theorem selectLoop_singleton (g : ℚ) (tn : ℕ) (x : Highlight) :
    selectLoop g tn [] [x] = [x] := by
  have hno : overlapsAny g [] x = false := by simp [overlapsAny]
  simp only [selectLoop, hno, Bool.false_eq_true, if_false, List.nil_append]
  split <;> simp [selectLoop]

theorem selectLoop_zero_length (g : ℚ) (l : List Highlight) :
    (selectLoop g 0 [] l).length ≤ 1 := by
  cases l with
  | nil => simp [selectLoop]
  | cons h rest =>
    have hno : overlapsAny g [] h = false := by simp [overlapsAny]
    simp [selectLoop, hno]

/-- Stability of the modelled Python sort: a predicate under which any two
satisfying elements are related by the sort relation is untouched by the
sort, because the satisfying elements already appear in relative sorted
order and insertion sort keeps their relative order. -/
theorem filter_insertionSort_of_pairwise (r : Highlight → Highlight → Prop)
    [DecidableRel r] (p : Highlight → Bool)
    (hp : ∀ a b, p a = true → p b = true → r a b) (l : List Highlight) :
    (l.insertionSort r).filter p = l.filter p := by
  have hpair : (l.filter p).Pairwise r := by
    rw [List.pairwise_iff_forall_sublist]
    intro a b hab
    have ha : p a = true := List.of_mem_filter (hab.subset (by simp))
    have hb : p b = true := List.of_mem_filter (hab.subset (by simp))
    exact hp a b ha hb
  have hsub : (l.filter p).Sublist (l.insertionSort r) :=
    List.sublist_insertionSort hpair (List.filter_sublist l)
  have hself : (l.filter p).filter p = l.filter p :=
    List.filter_eq_self.mpr fun a ha => List.of_mem_filter ha
  have hsub2 : (l.filter p).Sublist ((l.insertionSort r).filter p) := by
    have := List.Sublist.filter p hsub
    rwa [hself] at this
  have hperm : ((l.insertionSort r).filter p).Perm (l.filter p) :=
    List.Perm.filter p (List.perm_insertionSort r l)
  exact (hsub2.eq_of_length hperm.length_eq.symm).symm

/-- A list sorted by a rational key is determined by its key fibers: two
sorted lists whose sublists of key-q elements agree for every q are equal. -/
theorem sorted_eq_of_fibers (k : Highlight → ℚ) :
    ∀ (l₁ l₂ : List Highlight), l₁.Sorted (keyLE k) → l₂.Sorted (keyLE k) →
      (∀ q : ℚ, l₁.filter (fun a => decide (k a = q)) =
                l₂.filter (fun a => decide (k a = q))) →
      l₁ = l₂ := by
  intro l₁
  induction l₁ with
  | nil =>
    intro l₂ _ _ hf
    cases l₂ with
    | nil => rfl
    | cons b t₂ =>
      exfalso
      have := hf (k b)
      simp [List.filter_cons] at this
  | cons a t₁ ih =>
    intro l₂ h1 h2 hf
    cases l₂ with
    | nil =>
      exfalso
      have := hf (k a)
      simp [List.filter_cons] at this
    | cons b t₂ =>
      have ha_min : ∀ x ∈ a :: t₁, k a ≤ k x := by
        intro x hx
        rcases List.mem_cons.mp hx with h | h
        · subst h; exact le_refl _
        · exact List.rel_of_sorted_cons h1 x h
      have hb_min : ∀ x ∈ b :: t₂, k b ≤ k x := by
        intro x hx
        rcases List.mem_cons.mp hx with h | h
        · subst h; exact le_refl _
        · exact List.rel_of_sorted_cons h2 x h
      have hmemb : b ∈ (a :: t₁).filter (fun x => decide (k x = k b)) := by
        rw [hf (k b)]
        exact List.mem_filter.mpr ⟨List.mem_cons_self b t₂, by simp⟩
      have hmema : a ∈ (b :: t₂).filter (fun x => decide (k x = k a)) := by
        rw [← hf (k a)]
        exact List.mem_filter.mpr ⟨List.mem_cons_self a t₁, by simp⟩
      have hk : k a = k b :=
        le_antisymm (ha_min b (List.mem_filter.mp hmemb).1)
          (hb_min a (List.mem_filter.mp hmema).1)
      have hfa := hf (k a)
      rw [List.filter_cons, List.filter_cons,
        if_pos (show decide (k a = k a) = true by simp),
        if_pos (show decide (k b = k a) = true by simp [hk])] at hfa
      have hhead : a = b := List.head_eq_of_cons_eq hfa
      have htail_fiber : t₁.filter (fun x => decide (k x = k a)) =
          t₂.filter (fun x => decide (k x = k a)) := List.tail_eq_of_cons_eq hfa
      subst hhead
      have ht : t₁ = t₂ := by
        apply ih t₂ h1.of_cons h2.of_cons
        intro q
        by_cases hq : k a = q
        · subst hq; exact htail_fiber
        · have := hf q
          rw [List.filter_cons, List.filter_cons] at this
          simpa [hq] using this
      rw [ht]

/-- Composite stability fact: re-sorting an already start-sorted list by
score (descending) and then by start time again returns it unchanged,
provided it was produced from a score-sorted list. -/
theorem sortByStart_sortByScore_round (p : List Highlight)
    (hp : p.Pairwise (keyLE negScore)) :
    sortByStart (sortByScoreDesc (sortByStart p)) = sortByStart p := by
  apply sorted_eq_of_fibers startKey
  · exact List.sorted_insertionSort _ _
  · exact List.sorted_insertionSort _ _
  · intro q
    simp only [sortByStart, sortByScoreDesc]
    have hstart_cond : ∀ a b : Highlight,
        decide (startKey a = q) = true → decide (startKey b = q) = true →
          keyLE startKey a b := by
      intro a b ha hb
      simp only [decide_eq_true_eq] at ha hb
      unfold keyLE
      rw [ha, hb]
    rw [filter_insertionSort_of_pairwise (keyLE startKey) _ hstart_cond]
    apply sorted_eq_of_fibers negScore
    · exact List.Pairwise.sublist (List.filter_sublist _)
        (List.sorted_insertionSort (keyLE negScore) (p.insertionSort (keyLE startKey)))
    · have hfib : (p.insertionSort (keyLE startKey)).filter
            (fun a => decide (startKey a = q)) =
          p.filter (fun a => decide (startKey a = q)) :=
        filter_insertionSort_of_pairwise (keyLE startKey) _ hstart_cond p
      rw [hfib]
      exact List.Pairwise.sublist (List.filter_sublist _) hp
    · intro c
      have hcond : ∀ a b : Highlight,
          (decide (negScore a = c) && decide (startKey a = q)) = true →
          (decide (negScore b = c) && decide (startKey b = q)) = true →
            keyLE negScore a b := by
        intro a b ha hb
        rw [Bool.and_eq_true] at ha hb
        have ha' := of_decide_eq_true ha.1
        have hb' := of_decide_eq_true hb.1
        unfold keyLE
        rw [ha', hb']
      rw [List.filter_filter, List.filter_filter,
        filter_insertionSort_of_pairwise (keyLE negScore) _ hcond]

/-- Sample highlights used in concrete witnesses (the spec's selection
scenario: candidates at t=0 score 9, t=3 score 7, t=20 score 5). -/
def hlA : Highlight :=
  { start_time := 0, end_time := 45, score := 9, type := "audio",
    features := [], timestamp := "t0" }

def hlB : Highlight :=
  { start_time := 3, end_time := 48, score := 7, type := "audio",
    features := [], timestamp := "t1" }

def hlC : Highlight :=
  { start_time := 20, end_time := 65, score := 5, type := "audio",
    features := [], timestamp := "t2" }

/-- Sanity evaluation of the selector on the spec's scenario: minGap 10,
topN 10 keeps the candidates at t=0 and t=20 and drops t=3. -/
theorem filter_highlights_scenario :
    filter_highlights 10 10 (some 25) [hlA, hlB, hlC] = [hlA, hlC] := by
  norm_num [filter_highlights, effectiveTopN, sortByScoreDesc, sortByStart,
    selectLoop, overlapsAny, pyAbs, hlA, hlB, hlC, negScore, startKey, keyLE,
    List.insertionSort, List.orderedInsert]
  intro hcontra
  simp at hcontra

/-- C2 amended: whenever the effective cap min(topN, maxClips) is at least 1,
the selector output is sorted by start_time ascending, its length is at most
that cap (hence at most topN), and all accepted pairs respect minGap.  (With
an effective cap of 0 the code still emits one candidate, see the
counterexample.) -/
theorem filter_highlights_selection_spec (g : ℚ) (tn : ℕ) (mc : Option ℕ)
    (hs : List Highlight) (htn : 1 ≤ effectiveTopN tn mc) :
    (filter_highlights g tn mc hs).Sorted (keyLE startKey) ∧
    (filter_highlights g tn mc hs).length ≤ effectiveTopN tn mc ∧
    effectiveTopN tn mc ≤ tn ∧
    (filter_highlights g tn mc hs).Pairwise (GapOK g) := by
  have hle : effectiveTopN tn mc ≤ tn := by
    cases mc with
    | none => exact le_refl tn
    | some m => exact min_le_left tn m
  by_cases h0 : hs = []
  · subst h0
    simp only [filter_highlights, if_pos rfl]
    exact ⟨List.sorted_nil, by simp, hle, List.Pairwise.nil⟩
  · simp only [filter_highlights, if_neg h0]
    refine ⟨List.sorted_insertionSort _ _, ?_, hle, ?_⟩
    · rw [sortByStart, List.length_insertionSort]
      exact selectLoop_length_le g _ _ [] (by simpa using htn)
    · have hFgap : (selectLoop g (effectiveTopN tn mc) []
          (sortByScoreDesc hs)).Pairwise (GapOK g) :=
        selectLoop_pairwise g _ _ [] List.Pairwise.nil
      exact (List.Perm.pairwise_iff (fun hxy => gapOK_symm hxy)
        (List.perm_insertionSort (keyLE startKey) _)).mpr hFgap

/-- Witness for filter_highlights_selection_spec on the scenario input. -/
theorem filter_highlights_selection_spec_witness :
    1 ≤ effectiveTopN 10 (some 25) ∧
    ((filter_highlights 10 10 (some 25) [hlA, hlB, hlC]).Sorted (keyLE startKey) ∧
     (filter_highlights 10 10 (some 25) [hlA, hlB, hlC]).length ≤
       effectiveTopN 10 (some 25) ∧
     effectiveTopN 10 (some 25) ≤ 10 ∧
     (filter_highlights 10 10 (some 25) [hlA, hlB, hlC]).Pairwise (GapOK 10)) :=
  ⟨by decide, filter_highlights_selection_spec 10 10 (some 25) [hlA, hlB, hlC] (by decide)⟩

/-- C2 counterexample: with an effective cap of 0 (reachable by passing
max_clips = 0, so min(topN, maxClips) = 0) the greedy loop still accepts one
candidate before checking the cap, so the output length exceeds the claimed
bound min(topN, ceilings) = 0. -/
theorem filter_highlights_cap_cex :
    effectiveTopN 10 (some 0) = 0 ∧
    (filter_highlights 10 10 (some 0) [hlA]).length = 1 := by
  constructor
  · decide
  · decide

/-- C8: the highlight selector is idempotent: re-running _filter_highlights
on its own output with the same min_gap, top_n and max_clips returns that
output unchanged, for every input list. -/
theorem filter_highlights_idempotent (g : ℚ) (tn : ℕ) (mc : Option ℕ)
    (hs : List Highlight) :
    filter_highlights g tn mc (filter_highlights g tn mc hs) =
      filter_highlights g tn mc hs := by
  by_cases h0 : hs = []
  · subst h0
    simp [filter_highlights]
  · have hout : filter_highlights g tn mc hs =
        sortByStart (selectLoop g (effectiveTopN tn mc) [] (sortByScoreDesc hs)) := by
      simp only [filter_highlights, if_neg h0]
    set T := effectiveTopN tn mc with hT
    set F := selectLoop g T [] (sortByScoreDesc hs) with hF
    have hFscore : F.Pairwise (keyLE negScore) := by
      have hsub : F.Sublist ([] ++ sortByScoreDesc hs) :=
        selectLoop_sublist g T (sortByScoreDesc hs) []
      rw [List.nil_append] at hsub
      exact List.Pairwise.sublist hsub
        (List.sorted_insertionSort (keyLE negScore) hs)
    have hFgap : F.Pairwise (GapOK g) :=
      selectLoop_pairwise g T (sortByScoreDesc hs) [] List.Pairwise.nil
    have hFlen : F.length ≤ max 1 T := by
      rcases Nat.eq_zero_or_pos T with hT0 | hT1
      · rw [hF, hT0]
        exact le_trans (selectLoop_zero_length g _) (le_max_left 1 0)
      · exact le_trans (selectLoop_length_le g T _ [] (by simpa using hT1))
          (le_max_right 1 T)
    rw [hout]
    by_cases hFe : sortByStart F = []
    · rw [hFe]
      simp [filter_highlights]
    · have hout2 : filter_highlights g tn mc (sortByStart F) =
          sortByStart (selectLoop g T [] (sortByScoreDesc (sortByStart F))) := by
        simp only [filter_highlights, if_neg hFe, hT]
      rw [hout2]
      have hperm : (sortByScoreDesc (sortByStart F)).Perm F :=
        (List.perm_insertionSort (keyLE negScore) (sortByStart F)).trans
          (List.perm_insertionSort (keyLE startKey) F)
      have hgap2 : (sortByScoreDesc (sortByStart F)).Pairwise (GapOK g) :=
        (List.Perm.pairwise_iff (fun hxy => gapOK_symm hxy) hperm).mpr hFgap
      have hlen2 : (sortByScoreDesc (sortByStart F)).length = F.length :=
        hperm.length_eq
      have hall : selectLoop g T [] (sortByScoreDesc (sortByStart F)) =
          sortByScoreDesc (sortByStart F) := by
        rcases Nat.eq_zero_or_pos T with hT0 | hT1
        · have hlen1 : (sortByScoreDesc (sortByStart F)).length ≤ 1 := by
            rw [hlen2]
            have := hFlen
            rw [hT0] at this
            simpa using this
          cases hx : sortByScoreDesc (sortByStart F) with
          | nil => simp [selectLoop]
          | cons x xs =>
            cases xs with
            | nil => exact selectLoop_singleton g T x
            | cons y t =>
              rw [hx] at hlen1
              simp at hlen1
        · have happ := selectLoop_all g T (sortByScoreDesc (sortByStart F)) []
          apply happ hgap2
          rw [List.length_nil, Nat.zero_add, hlen2]
          calc F.length ≤ max 1 T := hFlen
          _ = T := max_eq_right hT1
      rw [hall]
      exact sortByStart_sortByScore_round F hFscore

/-- Metadata dict yielded per chunk by process_stream_chunks
(kick_clip_generator.py, lines 291-296). -/
structure ChunkInfo where
  start_time : ℚ
  end_time : ℚ
  index : ℕ
  deriving DecidableEq

/-- Ceiling of the exact fraction a/b for b > 0, computed on numerators and
denominators with integer division so that concrete instances evaluate. -/
def qceilDiv (a b : ℚ) : ℤ :=
  -((-(a.num * b.den)) / (a.den * b.num))

theorem qceilDiv_eq_ceil (a b : ℚ) (hb : 0 < b) : qceilDiv a b = ⌈a / b⌉ := by
  have hbnum : 0 < b.num := Rat.num_pos.mpr hb
  have hden : ((a.den * b.num.toNat : ℕ) : ℤ) = (a.den : ℤ) * b.num := by
    push_cast [Int.toNat_of_nonneg hbnum.le]
    ring
  have hcast : -(a / b) =
      ((-(a.num * b.den) : ℤ) : ℚ) / ((a.den * b.num.toNat : ℕ) : ℚ) := by
    have hda : ((a.den : ℚ)) ≠ 0 := by
      exact_mod_cast (Nat.cast_ne_zero (R := ℚ)).mpr a.den_pos.ne'
    have hdb : ((b.den : ℚ)) ≠ 0 := by
      exact_mod_cast (Nat.cast_ne_zero (R := ℚ)).mpr b.den_pos.ne'
    have hnb : ((b.num : ℚ)) ≠ 0 := by
      exact_mod_cast Int.cast_ne_zero.mpr hbnum.ne'
    have h1 : ((b.num.toNat : ℕ) : ℚ) = ((b.num : ℤ) : ℚ) := by
      exact_mod_cast Int.toNat_of_nonneg hbnum.le
    have hd2 : ((a.den * b.num.toNat : ℕ) : ℚ) = (a.den : ℚ) * (b.num : ℚ) := by
      push_cast
      rw [h1]
    rw [hd2]
    conv_lhs => rw [← Rat.num_div_den a, ← Rat.num_div_den b]
    push_cast
    field_simp
  have hfl := Rat.floor_intCast_div_natCast (-(a.num * b.den)) (a.den * b.num.toNat)
  calc qceilDiv a b
      = -((-(a.num * b.den)) / ((a.den : ℤ) * b.num)) := rfl
    _ = -((-(a.num * b.den)) / ((a.den * b.num.toNat : ℕ) : ℤ)) := by rw [hden]
    _ = -⌊((-(a.num * b.den) : ℤ) : ℚ) / ((a.den * b.num.toNat : ℕ) : ℚ)⌋ := by
        rw [hfl]
    _ = -⌊-(a / b)⌋ := by rw [hcast]
    _ = ⌈a / b⌉ := rfl

/-- Fuel bound realising the while loop of process_stream_chunks as
structural recursion; chunkLoop_closed shows the loop always terminates
before the fuel runs out. -/
def chunkFuel (remaining step : ℚ) : ℕ := (qceilDiv remaining step).toNat + 1

/-- While loop of process_stream_chunks (lines 276-302): while the cursor is
before the end bound, emit the chunk metadata (start, end truncated to the
end bound, index) and advance the cursor by chunk_duration − overlap.  The
chunk download is an external effect and is modelled as succeeding. -/
def chunkLoop (L O endT : ℚ) : ℕ → ℚ → ℕ → List ChunkInfo
  | 0, _, _ => []
  | fuel + 1, current, idx =>
    if current < endT then
      { start_time := current,
        end_time := min (current + min L (endT - current)) endT,
        index := idx } ::
        chunkLoop L O endT fuel (current + (L - O)) (idx + 1)
    else []

/-- Start bound of process_stream_chunks (lines 246-252): minutes converted
to seconds, negative values clamped to 0. -/
def clampedStart (start_minute : Option ℚ) : ℚ :=
  let s := match start_minute with
    | some m => m * 60
    | none => 0
  if s < 0 then 0 else s

/-- End bound of process_stream_chunks (lines 247-256): minutes converted to
seconds, values beyond the stream duration clamped to the duration. -/
def clampedEnd (duration : ℚ) (end_minute : Option ℚ) : ℚ :=
  let e := match end_minute with
    | some m => m * 60
    | none => duration
  if e > duration then duration else e

/-- End bound after enforcing the maximum processed duration (lines 262-269):
when the requested range exceeds maxDur, processing is truncated to the first
maxDur seconds rather than failed. -/
def truncatedEnd (maxDur s e : ℚ) : ℚ :=
  if e - s > maxDur then s + maxDur else e

/-- StreamProcessor.process_stream_chunks (lines 229-302) for a stream of
known duration: clamp the bounds, yield no chunks when start ≥ end, truncate
to the maximum duration, then walk the windows. -/
def process_stream_chunks (L O maxDur duration : ℚ)
    (start_minute end_minute : Option ℚ) : List ChunkInfo :=
  let s := clampedStart start_minute
  let e := clampedEnd duration end_minute
  if s ≥ e then []
  else
    let e2 := truncatedEnd maxDur s e
    chunkLoop L O e2 (chunkFuel (e2 - s) (L - O)) s 0

/-- Closed-form description of the i-th window emitted from cursor position
current with first index idx: it starts i steps of length L−O later and ends
at start + L, truncated to the end bound. -/
def windowFrom (L O endT current : ℚ) (idx i : ℕ) : ChunkInfo :=
  { start_time := current + i * (L - O),
    end_time := min (current + i * (L - O) + L) endT,
    index := idx + i }

theorem chunkLoop_closed (L O endT : ℚ) (hLO : 0 < L - O) :
    ∀ (fuel : ℕ) (current : ℚ) (idx : ℕ),
      (qceilDiv (endT - current) (L - O)).toNat < fuel →
      chunkLoop L O endT fuel current idx =
        (List.range (qceilDiv (endT - current) (L - O)).toNat).map
          (windowFrom L O endT current idx) := by
  intro fuel
  induction fuel with
  | zero => intro current idx h; exact absurd h (Nat.not_lt_zero _)
  | succ fuel ih =>
    intro current idx hf
    rw [qceilDiv_eq_ceil _ _ hLO] at hf ⊢
    by_cases hc : current < endT
    · have hpos : (0:ℚ) < endT - current := by linarith
      have hquot : (0:ℚ) < (endT - current) / (L - O) := div_pos hpos hLO
      have hceil : 0 < ⌈(endT - current) / (L - O)⌉ := Int.ceil_pos.mpr hquot
      have hshift : ⌈(endT - (current + (L - O))) / (L - O)⌉ =
          ⌈(endT - current) / (L - O)⌉ - 1 := by
        have : (endT - (current + (L - O))) / (L - O) =
            (endT - current) / (L - O) - 1 := by
          rw [show endT - (current + (L - O)) = (endT - current) - (L - O) by ring,
            sub_div, div_self hLO.ne']
        rw [this, Int.ceil_sub_one]
      have hn : ⌈(endT - current) / (L - O)⌉.toNat =
          ⌈(endT - (current + (L - O))) / (L - O)⌉.toNat + 1 := by
        rw [hshift]; omega
      rw [chunkLoop, if_pos hc]
      have hend : min (current + min L (endT - current)) endT =
          min (current + L) endT := by
        rw [← min_add_add_left current L (endT - current)]
        have h2 : current + (endT - current) = endT := by ring
        rw [h2, min_assoc, min_self]
      rw [ih (current + (L - O)) (idx + 1)
        (by rw [qceilDiv_eq_ceil _ _ hLO]; omega)]
      rw [qceilDiv_eq_ceil _ _ hLO, hn, List.range_succ_eq_map, List.map_cons,
        List.map_map]
      congr 1
      · simp only [windowFrom, ChunkInfo.mk.injEq]
        refine ⟨by push_cast; ring, ?_, by omega⟩
        rw [hend]
        congr 1
        push_cast
        ring
      · apply List.map_congr_left
        intro i _
        simp only [Function.comp_apply, windowFrom, ChunkInfo.mk.injEq,
          Nat.succ_eq_add_one]
        refine ⟨by push_cast; ring, ?_, by omega⟩
        congr 1
        push_cast
        ring
    · have hle : endT - current ≤ 0 := by linarith
      have hq : (endT - current) / (L - O) ≤ 0 :=
        div_nonpos_of_nonpos_of_nonneg hle hLO.le
      have h0 : ⌈(endT - current) / (L - O)⌉.toNat = 0 := by
        have := Int.ceil_le.mpr (by exact_mod_cast hq : (endT - current) / (L - O) ≤ ((0:ℤ):ℚ))
        exact Int.toNat_of_nonpos this
      rw [h0, chunkLoop, if_neg hc]
      simp

/-- Closed form of the chunk scheduler: with clamped start s, clamped and
truncated end e2 and step L−O, the yielded windows are exactly the first
ceil((e2−s)/(L−O)) entries of the window profile. -/
theorem process_stream_chunks_eq_windows (L O maxDur duration : ℚ)
    (sm em : Option ℚ) (hLO : O < L) :
    process_stream_chunks L O maxDur duration sm em =
      (List.range (qceilDiv
          (truncatedEnd maxDur (clampedStart sm) (clampedEnd duration em) -
            clampedStart sm) (L - O)).toNat).map
        (windowFrom L O
          (truncatedEnd maxDur (clampedStart sm) (clampedEnd duration em))
          (clampedStart sm) 0) := by
  have hs : (0:ℚ) < L - O := by linarith
  simp only [process_stream_chunks]
  by_cases hse : clampedStart sm ≥ clampedEnd duration em
  · rw [if_pos hse]
    have he2s : truncatedEnd maxDur (clampedStart sm) (clampedEnd duration em) -
        clampedStart sm ≤ 0 := by
      unfold truncatedEnd
      split
      · linarith
      · linarith
    have h0 : (qceilDiv (truncatedEnd maxDur (clampedStart sm)
        (clampedEnd duration em) - clampedStart sm) (L - O)).toNat = 0 := by
      rw [qceilDiv_eq_ceil _ _ hs]
      apply Int.toNat_of_nonpos
      apply Int.ceil_le.mpr
      push_cast
      exact div_nonpos_of_nonpos_of_nonneg he2s hs.le
    rw [h0]
    simp
  · rw [if_neg hse]
    exact chunkLoop_closed L O _ hs _ (clampedStart sm) 0
      (by unfold chunkFuel; omega)

/-- Helper bound: the truncated end never exceeds start + maxDur and never
exceeds the clamped end bound. -/
theorem truncatedEnd_le (maxDur s e : ℚ) :
    truncatedEnd maxDur s e ≤ s + maxDur ∨ e - s ≤ maxDur := by
  unfold truncatedEnd
  split
  · exact Or.inl (le_refl _)
  · right; linarith

theorem truncatedEnd_le_end (maxDur s e : ℚ) : truncatedEnd maxDur s e ≤ e := by
  unfold truncatedEnd
  split
  · linarith
  · exact le_refl e

/-- C5 amended: with O < L the scheduler emits exactly the windows of the
closed-form profile: starts advance by exactly L−O from the clamped start,
and the i-th window ends at min(start_i + L, e2) where e2 is the clamped end
truncated by the maximum processed duration — so every window that starts
within L of e2 is shortened (there can be more than one such window when
O > 0, see the counterexample); zero windows are produced when start ≥ end
after clamping; and every emitted window ends by the clamped end bound and by
start + maxDur. -/
theorem process_stream_chunks_spec (L O maxDur duration : ℚ)
    (sm em : Option ℚ) (hLO : O < L) :
    (process_stream_chunks L O maxDur duration sm em =
      (List.range (qceilDiv
          (truncatedEnd maxDur (clampedStart sm) (clampedEnd duration em) -
            clampedStart sm) (L - O)).toNat).map
        (windowFrom L O
          (truncatedEnd maxDur (clampedStart sm) (clampedEnd duration em))
          (clampedStart sm) 0)) ∧
    (clampedStart sm ≥ clampedEnd duration em →
      process_stream_chunks L O maxDur duration sm em = []) ∧
    (∀ c ∈ process_stream_chunks L O maxDur duration sm em,
      c.end_time ≤ clampedEnd duration em ∧
      c.end_time ≤ clampedStart sm + maxDur) := by
  refine ⟨process_stream_chunks_eq_windows L O maxDur duration sm em hLO, ?_, ?_⟩
  · intro hse
    simp only [process_stream_chunks]
    rw [if_pos hse]
  · intro c hc
    rw [process_stream_chunks_eq_windows L O maxDur duration sm em hLO] at hc
    rw [List.mem_map] at hc
    obtain ⟨i, _, rfl⟩ := hc
    constructor
    · exact le_trans (min_le_right _ _)
        (truncatedEnd_le_end maxDur (clampedStart sm) (clampedEnd duration em))
    · refine le_trans (min_le_right _ _) ?_
      unfold truncatedEnd
      split
      · exact le_refl _
      · linarith

/-- Witness for process_stream_chunks_spec at the concrete configuration
L = 45, O = 3 (StreamProcessor defaults), maxDur = 36000, a 10000 s stream
and the minute range [0, 43/30]. -/
theorem process_stream_chunks_spec_witness :
    (3:ℚ) < 45 ∧
    process_stream_chunks 45 3 36000 10000 (some 0) (some (43/30)) =
      (List.range (qceilDiv
          (truncatedEnd 36000 (clampedStart (some 0))
              (clampedEnd 10000 (some (43/30))) -
            clampedStart (some 0)) (45 - 3)).toNat).map
        (windowFrom 45 3
          (truncatedEnd 36000 (clampedStart (some 0))
            (clampedEnd 10000 (some (43/30))))
          (clampedStart (some 0)) 0) :=
  ⟨by norm_num,
   (process_stream_chunks_spec 45 3 36000 10000 (some 0) (some (43/30))
     (by norm_num)).1⟩

/-- First window of the concrete scheduler run used in the examples. -/
def chunkEx0 : ChunkInfo := { start_time := 0, end_time := 45, index := 0 }

/-- Second window of the concrete run: shortened to 44 s yet not final. -/
def chunkEx1 : ChunkInfo := { start_time := 42, end_time := 86, index := 1 }

/-- Final window of the concrete run, shortened to 2 s. -/
def chunkEx2 : ChunkInfo := { start_time := 84, end_time := 86, index := 2 }

/-- Concrete evaluation of the scheduler at L = 45, O = 3, end bound 86 s:
three windows, of lengths 45, 44 and 2 — the second-to-last window is
already shortened. -/
theorem process_chunks_example :
    process_stream_chunks 45 3 36000 10000 (some 0) (some (43/30)) =
      [chunkEx0, chunkEx1, chunkEx2] := by
  have h1 : clampedStart (some 0) = 0 := by norm_num [clampedStart]
  have h2 : clampedEnd 10000 (some (43/30)) = 86 := by norm_num [clampedEnd]
  have h3 : truncatedEnd 36000 0 86 = 86 := by norm_num [truncatedEnd]
  have heq := process_stream_chunks_eq_windows 45 3 36000 10000
    (some 0) (some (43/30)) (by norm_num)
  rw [h1, h2, h3] at heq
  have h4 : (qceilDiv (86 - 0) (45 - 3)).toNat = 3 := by
    rw [show (86:ℚ) - 0 = 86 by norm_num, show (45:ℚ) - 3 = 42 by norm_num,
      qceilDiv_eq_ceil 86 42 (by norm_num)]
    have hc : (⌈(86:ℚ)/42⌉ : ℤ) = 3 := by
      rw [Int.ceil_eq_iff]
      constructor <;> norm_num
    rw [hc]
    rfl
  rw [h4] at heq
  rw [heq]
  norm_num [List.range_succ, windowFrom, min_def, chunkEx0, chunkEx1, chunkEx2]

/-- C5 counterexample: at L = 45, O = 3 with end bound 86 s the scheduler
produces windows of lengths 45, 44 and 2; the window of length 44 is not the
final one, refuting the claim that every window except the final one has
length exactly L. -/
theorem process_stream_chunks_shortened_cex :
    process_stream_chunks 45 3 36000 10000 (some 0) (some (43/30)) =
      [chunkEx0, chunkEx1, chunkEx2] ∧
    (∃ c ∈ (process_stream_chunks 45 3 36000 10000
        (some 0) (some (43/30))).dropLast,
      c.end_time - c.start_time ≠ 45) := by
  refine ⟨process_chunks_example, ?_⟩
  rw [process_chunks_example]
  refine ⟨chunkEx1, by simp, by norm_num [chunkEx1]⟩

/-- Highlight construction of KickClipGenerator.process_stream (lines
817-853) for one modality: for every yielded chunk whose feature extraction
succeeds (featOf returns a feature mapping for that chunk index), a candidate
is built with start_time = chunk start and end_time = chunk start plus the
processor's full chunk_duration — not the chunk metadata's truncated
end_time — and score combining the heuristic and model scores. -/
def highlightsFromChunks (L : ℚ) (featOf : ℕ → Option (List (String × ℚ)))
    (heurScore mlScore : List (String × ℚ) → ℚ) (modality ts : String)
    (chunks : List ChunkInfo) : List Highlight :=
  chunks.filterMap fun c =>
    (featOf c.index).map fun f =>
      { start_time := c.start_time,
        end_time := c.start_time + L,
        score := combinedScore (heurScore f) (mlScore f),
        type := modality,
        features := f,
        timestamp := ts }

/-- Candidate built from the final (truncated) window of the concrete run:
its end_time 84 + 45 = 129 exceeds the 86 s end bound. -/
def hlEx : Highlight :=
  { start_time := 84, end_time := 84 + 45, score := combinedScore 1 0,
    type := "audio", features := [], timestamp := "ts" }

/-- C9: every candidate emitted by process_stream ends exactly
chunk_duration after it starts, including the one built from a truncated
final window, while every yielded chunk's metadata end_time is capped at the
clamped end bound; consequently a candidate's end_time can exceed the
requested end bound (witnessed concretely at the 86 s bound, where the
candidate built from the chunk at 84 s ends at 129 s). -/
theorem process_stream_candidate_end_times (L O maxDur duration : ℚ)
    (sm em : Option ℚ) (featOf : ℕ → Option (List (String × ℚ)))
    (heurScore mlScore : List (String × ℚ) → ℚ) (modality ts : String) :
    (∀ hl ∈ highlightsFromChunks L featOf heurScore mlScore modality ts
        (process_stream_chunks L O maxDur duration sm em),
      hl.end_time = hl.start_time + L) ∧
    (O < L → ∀ c ∈ process_stream_chunks L O maxDur duration sm em,
      c.end_time ≤ clampedEnd duration em) ∧
    (∃ hl ∈ highlightsFromChunks 45 (fun _ => some []) (fun _ => 1)
        (fun _ => 0) "audio" "ts"
        (process_stream_chunks 45 3 36000 10000 (some 0) (some (43/30))),
      clampedEnd 10000 (some (43/30)) < hl.end_time) := by
  refine ⟨?_, ?_, ?_⟩
  · intro hl hmem
    rw [highlightsFromChunks, List.mem_filterMap] at hmem
    obtain ⟨c, _, hc⟩ := hmem
    cases hof : featOf c.index with
    | none => rw [hof] at hc; simp at hc
    | some f =>
      rw [hof] at hc
      have hc' : hl =
          { start_time := c.start_time,
            end_time := c.start_time + L,
            score := combinedScore (heurScore f) (mlScore f),
            type := modality,
            features := f,
            timestamp := ts } := (Option.some.inj hc).symm
      rw [hc']
  · intro hLO c hc
    exact ((process_stream_chunks_spec L O maxDur duration sm em hLO).2.2 c hc).1
  · refine ⟨hlEx, ?_, ?_⟩
    · rw [highlightsFromChunks, process_chunks_example]
      simp [hlEx, chunkEx0, chunkEx1, chunkEx2]
    · have h2 : clampedEnd 10000 (some (43/30)) = 86 := by
        norm_num [clampedEnd]
      rw [h2]
      norm_num [hlEx]

/-- Witness for process_stream_candidate_end_times: at the concrete
configuration the first chunk's metadata ends within the clamped end bound,
while its candidate ends a full chunk_duration after its start. -/
theorem process_stream_candidate_end_times_witness :
    (3:ℚ) < 45 ∧
    chunkEx0 ∈ process_stream_chunks 45 3 36000 10000 (some 0) (some (43/30)) ∧
    chunkEx0.end_time ≤ clampedEnd 10000 (some (43/30)) :=
  ⟨by norm_num,
   by rw [process_chunks_example]; simp,
   (process_stream_candidate_end_times 45 3 36000 10000 (some 0)
       (some (43/30)) (fun _ => some []) (fun _ => 1) (fun _ => 0)
       "audio" "ts").2.1 (by norm_num) chunkEx0
     (by rw [process_chunks_example]; simp)⟩

/-- Per-modality regression model slot of MLHighlightModel (lines 594-611):
whether the standardization scaler has been fitted, the accumulated training
samples (vector, target), the expected feature count recorded at the last
fit, and the fitted scaler-plus-ensemble pipeline, modelled as the scoring
function it computes on a feature vector. -/
structure RegressorState where
  scaler_fitted : Bool
  samples : List (List ℚ × ℚ)
  expected_features : Option ℕ
  ens : List ℚ → ℚ

/-- Fresh modality slot as produced by __init__ or a reset: unfitted scaler,
no samples, no expected feature count, a fresh estimator (never consulted
while the scaler is unfitted). -/
def freshRegressor : RegressorState :=
  { scaler_fitted := false, samples := [], expected_features := none,
    ens := fun _ => 0 }

/-- MLHighlightModel state: the two modality slots plus the prediction cache
keyed by the feature mapping (line 610); the cache is shared by both
modalities and is never cleared by retrain or the resets. -/
structure MLModelState where
  audio : RegressorState
  video : RegressorState
  cache : List (List (String × ℚ) × ℚ)

/-- MLHighlightModel._dict_to_vector (lines 745-747): the feature values in
mapping order. -/
def dict_to_vector (features : List (String × ℚ)) : List ℚ :=
  features.map fun p => p.2

/-- Prediction-cache lookup by exact feature-mapping key (lines 617-619). -/
def cacheLookup (cache : List (List (String × ℚ) × ℚ))
    (features : List (String × ℚ)) : Option ℚ :=
  (cache.find? fun p => decide (p.1 = features)).map fun p => p.2

/-- MLHighlightModel._reset_audio_model (lines 727-734): replace the audio
estimator and scaler, clear the accumulated audio samples and the expected
audio feature count.  The prediction cache is not touched. -/
def reset_audio_model (st : MLModelState) : MLModelState :=
  { st with audio := freshRegressor }

/-- MLHighlightModel._reset_video_model (lines 736-743). -/
def reset_video_model (st : MLModelState) : MLModelState :=
  { st with video := freshRegressor }

/-- MLHighlightModel.predict_audio_score (lines 613-657): a cached value for
the feature mapping is returned unchanged before anything else runs;
otherwise the score is 0.0 when the scaler is unfitted or fewer than 10
audio samples are accumulated; otherwise a recorded feature-count mismatch
resets the audio model and scores 0.0; otherwise the fitted pipeline is
applied.  The floor-clamped score is written to the cache and returned.
This model is total, so the method-level except (returning 0.0) never
fires. -/
def predict_audio_score (st : MLModelState) (features : List (String × ℚ)) :
    ℚ × MLModelState :=
  match cacheLookup st.cache features with
  | some v => (v, st)
  | none =>
    let fv := dict_to_vector features
    let res :=
      if ¬ st.audio.scaler_fitted ∨ st.audio.samples.length < 10 then
        ((0:ℚ), st)
      else
        match st.audio.expected_features with
        | some n =>
          if fv.length ≠ n then ((0:ℚ), reset_audio_model st)
          else (st.audio.ens fv, st)
        | none => (st.audio.ens fv, st)
    let v := max 0 res.1
    (v, { res.2 with cache := (features, v) :: res.2.cache })

/-- MLHighlightModel.predict_video_score (lines 659-684), mirroring the
audio path on the video slot. -/
def predict_video_score (st : MLModelState) (features : List (String × ℚ)) :
    ℚ × MLModelState :=
  match cacheLookup st.cache features with
  | some v => (v, st)
  | none =>
    let fv := dict_to_vector features
    let res :=
      if ¬ st.video.scaler_fitted ∨ st.video.samples.length < 10 then
        ((0:ℚ), st)
      else
        match st.video.expected_features with
        | some n =>
          if fv.length ≠ n then ((0:ℚ), reset_video_model st)
          else (st.video.ens fv, st)
        | none => (st.video.ens fv, st)
    let v := max 0 res.1
    (v, { res.2 with cache := (features, v) :: res.2.cache })

/-- MLHighlightModel.add_training_sample (lines 686-690). -/
def add_training_sample (st : MLModelState) (features : List (String × ℚ))
    (score : ℚ) (feature_type : String) : MLModelState :=
  if feature_type = "audio" then
    { st with audio := { st.audio with
        samples := st.audio.samples ++ [(dict_to_vector features, score)] } }
  else if feature_type = "video" then
    { st with video := { st.video with
        samples := st.video.samples ++ [(dict_to_vector features, score)] } }
  else st

/-- Video half of MLHighlightModel.retrain (lines 709-721): with at least 10
video samples, record the expected feature count (X.shape[1], the width of
the rectangular sample matrix) and fit; a fit exception (oracle none) leaves
the slot with only the expected count updated.  Fewer than 10 samples leave
the state untouched. -/
def retrainVideo (fitV : List (List ℚ × ℚ) → Option (List ℚ → ℚ))
    (st : MLModelState) : MLModelState :=
  if 10 ≤ st.video.samples.length then
    let expV := ((st.video.samples.head?).map fun s => s.1.length).getD 0
    match fitV st.video.samples with
    | none =>
      { st with video := { st.video with expected_features := some expV } }
    | some f =>
      { st with video :=
          { st.video with
            expected_features := some expV, ens := f, scaler_fitted := true } }
  else st

/-- MLHighlightModel.retrain (lines 692-725): the audio block runs first,
then the video block, then the model is persisted (an external effect not
modelled); a single try/except wraps the whole method, so an exception while
fitting the audio model skips the video block entirely.  The expected
feature count is assigned before the fit, so it is updated even when the fit
then raises.  The prediction cache is not cleared. -/
def retrain (fitA fitV : List (List ℚ × ℚ) → Option (List ℚ → ℚ))
    (st : MLModelState) : MLModelState :=
  if 10 ≤ st.audio.samples.length then
    let expA := ((st.audio.samples.head?).map fun s => s.1.length).getD 0
    match fitA st.audio.samples with
    | none =>
      { st with audio := { st.audio with expected_features := some expA } }
    | some f =>
      retrainVideo fitV
        { st with audio :=
            { st.audio with
              expected_features := some expA, ens := f, scaler_fitted := true } }
  else retrainVideo fitV st

/-- Fixed ordered feature-key list of RatingBasedTrainer._extract_feature_vector
(model_trainer.py, lines 186-203). -/
def feature_keys : List String :=
  ["rms_mean", "rms_std", "zcr_mean", "zcr_std",
   "spectral_centroid_mean", "spectral_centroid_std",
   "spectral_rolloff_mean", "spectral_rolloff_std",
   "tempo", "beat_strength",
   "motion_mean", "motion_std", "edge_density",
   "color_variance", "brightness_mean"]

/-- RatingBasedTrainer._extract_feature_vector: the 15 fixed keys in order,
0.0 where the mapping lacks a key. -/
def extract_feature_vector (features : List (String × ℚ)) : List ℚ :=
  feature_keys.map fun k =>
    (((features.find? fun p => decide (p.1 = k)).map fun p => p.2).getD 0)

/-- Audio-specific keys of RatingBasedTrainer._is_audio_features
(lines 205-208). -/
def audio_keys : List String :=
  ["rms_mean", "zcr_mean", "spectral_centroid_mean", "tempo"]

/-- RatingBasedTrainer._is_audio_features: a mapping is audio when any
audio-specific key is present. -/
def is_audio_features (features : List (String × ℚ)) : Bool :=
  audio_keys.any fun k => features.any fun p => decide (p.1 = k)

/-- RatingBasedTrainer.prepare_training_data (lines 26-66): each rated clip's
1-5 star rating is normalised to (rating−1)/4 and the fixed feature vector is
extracted; clips are partitioned into audio and video by key sniffing. -/
def prepare_training_data (clips : List (List (String × ℚ) × ℤ)) :
    List (List ℚ × ℚ) × List (List ℚ × ℚ) :=
  ((clips.filter fun c => is_audio_features c.1).map fun c =>
     (extract_feature_vector c.1, ((c.2 : ℚ) - 1) / 4),
   (clips.filter fun c => ¬ is_audio_features c.1).map fun c =>
     (extract_feature_vector c.1, ((c.2 : ℚ) - 1) / 4))

/-- Persisted model blob handled by RatingBasedTrainer (model_trainer.py,
lines 152-184): per-modality fitted pipeline (none = fresh unfitted
estimator), the stored sample history and the recorded feature counts. -/
structure StoredModel where
  audio_ens : Option (List ℚ → ℚ)
  video_ens : Option (List ℚ → ℚ)
  audio_samples : List (List ℚ × ℚ)
  video_samples : List (List ℚ × ℚ)
  audio_feature_count : Option ℕ
  video_feature_count : Option ℕ

/-- Fresh model structure of RatingBasedTrainer._load_or_create_model
(lines 162-175). -/
def freshStoredModel : StoredModel :=
  { audio_ens := none, video_ens := none, audio_samples := [],
    video_samples := [], audio_feature_count := none,
    video_feature_count := none }

/-- Video half of train_from_ratings (model_trainer.py, lines 109-146),
given whether the audio half already trained, the blob on disk (stored) and
the in-memory blob updated so far (current): a video fit exception aborts
the whole call through the method-level except, returning False with the
on-disk blob unchanged; otherwise True with the updated blob is persisted
exactly when at least one modality trained. -/
def trainVideoFromRatings (fitV : List (List ℚ × ℚ) → Option (List ℚ → ℚ))
    (min_samples : ℕ) (videoD : List (List ℚ × ℚ)) (trained : Bool)
    (stored current : StoredModel) : Bool × StoredModel :=
  if min_samples ≤ videoD.length then
    match fitV videoD with
    | none => (false, stored)
    | some g =>
      (true,
       { current with
         video_ens := some g, video_samples := videoD,
         video_feature_count := some (((videoD.head?).map fun s => s.1.length).getD 0) })
  else if trained then (true, current) else (false, stored)

/-- RatingBasedTrainer.train_from_ratings (lines 68-150): prepare the
rating-derived data, train the audio model when it has at least min_samples
samples, then the video model likewise, persist the blob and return True
when at least one modality trained; fewer samples than the floor on both
sides returns False with nothing persisted, and a fit exception in either
modality is caught by the single method-level try/except, returning False
with nothing persisted (a successfully fitted audio model is then lost). -/
def train_from_ratings (fitA fitV : List (List ℚ × ℚ) → Option (List ℚ → ℚ))
    (min_samples : ℕ) (clips : List (List (String × ℚ) × ℤ))
    (stored : StoredModel) : Bool × StoredModel :=
  let audioD := (prepare_training_data clips).1
  let videoD := (prepare_training_data clips).2
  if min_samples ≤ audioD.length then
    match fitA audioD with
    | none => (false, stored)
    | some f =>
      trainVideoFromRatings fitV min_samples videoD true stored
        { stored with
          audio_ens := some f, audio_samples := audioD,
          audio_feature_count := some (((audioD.head?).map fun s => s.1.length).getD 0) }
  else trainVideoFromRatings fitV min_samples videoD false stored stored

/-- auto_train_if_ready (model_trainer.py, lines 241-251): retrain runs only
when get_training_progress reports readiness (total rated-clip count at
least 10, lines 230-238) and the count is divisible by 5. -/
def auto_train_if_ready (fitA fitV : List (List ℚ × ℚ) → Option (List ℚ → ℚ))
    (min_samples : ℕ) (clips : List (List (String × ℚ) × ℤ))
    (stored : StoredModel) : Bool :=
  if 10 ≤ clips.length ∧ clips.length % 5 = 0 then
    (train_from_ratings fitA fitV min_samples clips stored).1
  else false

/-- Fit oracle that always succeeds, fitting the constant-1 predictor. -/
def fitConst : List (List ℚ × ℚ) → Option (List ℚ → ℚ) :=
  fun _ => some fun _ => 1

/-- Fit oracle modelling a numerical fit exception on every call. -/
def fitFail : List (List ℚ × ℚ) → Option (List ℚ → ℚ) :=
  fun _ => none

/-- Audio feature mapping with three features, used by the traces. -/
def fA3 : List (String × ℚ) := [("rms_mean", 1), ("rms_std", 2), ("zcr_mean", 3)]

/-- Feature mapping with two features, used by the traces. -/
def fB2 : List (String × ℚ) := [("motion_mean", 1), ("motion_std", 2)]

/-- Fresh MLHighlightModel state (no prior pickle on disk). -/
def st0 : MLModelState :=
  { audio := freshRegressor, video := freshRegressor, cache := [] }

/-- Applies add_training_sample n times with the same feature mapping and
score 1, as process_stream does once per processed chunk. -/
def addSamples (st : MLModelState) (features : List (String × ℚ)) (n : ℕ)
    (feature_type : String) : MLModelState :=
  (List.replicate n features).foldl
    (fun s f => add_training_sample s f 1 feature_type) st

/-- Trace state: 10 three-feature audio samples accumulated and retrained,
so the audio model is Trained with expected feature count 3. -/
def stB : MLModelState := retrain fitConst fitConst (addSamples st0 fA3 10 "audio")

/-- Trace state: after predicting on fA3 (cached score 1). -/
def stC : MLModelState := (predict_audio_score stB fA3).2

/-- Trace state: after predicting on the two-feature mapping fB2, which
mismatches the expected count 3 and resets the audio model; the cache keeps
the stale entry for fA3. -/
def stD : MLModelState := (predict_audio_score stC fB2).2

/-- Trace state: 10 two-feature audio samples accumulated after the reset
and retrained, so the audio model is Trained with expected feature count 2
while the cache still holds the stale fA3 entry. -/
def stF : MLModelState := retrain fitConst fitConst (addSamples stD fB2 10 "audio")

/-- Values read from the prediction cache are nonnegative whenever all
cached values are (every write to the cache is floor-clamped). -/
theorem cacheLookup_nonneg {cache : List (List (String × ℚ) × ℚ)}
    {features : List (String × ℚ)} {v : ℚ}
    (hc : ∀ p ∈ cache, 0 ≤ p.2)
    (h : cacheLookup cache features = some v) : 0 ≤ v := by
  unfold cacheLookup at h
  cases hf : cache.find? fun p => decide (p.1 = features) with
  | none => rw [hf] at h; simp at h
  | some p =>
    rw [hf] at h
    simp only [Option.map_some', Option.some_inj] at h
    exact h ▸ hc p (List.mem_of_find?_eq_some hf)

/-- C1 amended: when no cached prediction exists for the feature mapping,
predicting on a Trained audio model (scaler fitted, at least 10 samples)
with a vector whose length differs from the recorded expected feature count
resets the audio slot — estimator, scaler, sample history and expected count
all cleared — caches and returns 0.0, and (the function being total) never
raises.  A cache hit bypasses the whole check, see the counterexample. -/
theorem predict_mismatch_resets (st : MLModelState)
    (features : List (String × ℚ)) (n : ℕ)
    (hmiss : cacheLookup st.cache features = none)
    (hfit : st.audio.scaler_fitted = true)
    (h10 : 10 ≤ st.audio.samples.length)
    (hexp : st.audio.expected_features = some n)
    (hne : (dict_to_vector features).length ≠ n) :
    (predict_audio_score st features).1 = 0 ∧
    (predict_audio_score st features).2.audio.scaler_fitted = false ∧
    (predict_audio_score st features).2.audio.samples = [] ∧
    (predict_audio_score st features).2.audio.expected_features = none ∧
    (predict_audio_score st features).2.cache = (features, 0) :: st.cache := by
  have hcond : ¬ (¬ st.audio.scaler_fitted = true ∨
      st.audio.samples.length < 10) := by
    rintro (h | h)
    · exact h hfit
    · omega
  have hred : predict_audio_score st features =
      (0, { reset_audio_model st with cache := (features, 0) :: st.cache }) := by
    unfold predict_audio_score
    rw [hmiss]
    dsimp only
    rw [if_neg hcond, hexp]
    dsimp only
    rw [if_pos hne]
    dsimp only
    rw [max_self]
    rfl
  rw [hred]
  exact ⟨rfl, rfl, rfl, rfl, rfl⟩

/-- Witness for predict_mismatch_resets: the Trained state stB (expected
count 3, empty-cache miss on the two-feature mapping fB2) is reset and
scores 0. -/
theorem predict_mismatch_resets_witness :
    (cacheLookup stB.cache fB2 = none ∧ stB.audio.scaler_fitted = true ∧
     10 ≤ stB.audio.samples.length ∧ stB.audio.expected_features = some 3 ∧
     (dict_to_vector fB2).length ≠ 3) ∧
    (predict_audio_score stB fB2).1 = 0 ∧
    (predict_audio_score stB fB2).2.audio.expected_features = none :=
  ⟨by decide,
   (predict_mismatch_resets stB fB2 3 (by decide) (by decide) (by decide)
     (by decide) (by decide)).1,
   (predict_mismatch_resets stB fB2 3 (by decide) (by decide) (by decide)
     (by decide) (by decide)).2.2.2.1⟩

/-- C1 counterexample: in the reachable trace state stF the audio model is
Trained with expected feature count 2, yet predicting with the three-feature
mapping fA3 returns the stale cached score 1 (nonzero) and performs no
reset, because the cache — never cleared by retrain or reset — is consulted
before the feature-count check. -/
theorem predict_cache_skips_reset_cex :
    stF.audio.scaler_fitted = true ∧
    10 ≤ stF.audio.samples.length ∧
    stF.audio.expected_features = some 2 ∧
    (dict_to_vector fA3).length ≠ 2 ∧
    (predict_audio_score stF fA3).1 = 1 ∧
    (predict_audio_score stF fA3).1 ≠ 0 ∧
    (predict_audio_score stF fA3).2.audio.expected_features = some 2 ∧
    (predict_audio_score stF fA3).2.audio.samples.length = 10 := by decide

/-- C4 amended: predictions are nonnegative provided every cached value is
(an invariant of execution, since all cache writes are floor-clamped); and
when the feature mapping has no cached prediction, an Untrained or
sample-starved modality (scaler unfitted or fewer than 10 samples) scores
exactly 0.0 without consulting the ensemble — the state, and with it the
stored estimator, is universally quantified.  A stale cache hit can return a
nonzero score while Untrained, see the counterexample. -/
theorem predict_nonneg_and_zero (st : MLModelState)
    (features : List (String × ℚ)) :
    ((∀ p ∈ st.cache, 0 ≤ p.2) →
      0 ≤ (predict_audio_score st features).1 ∧
      0 ≤ (predict_video_score st features).1) ∧
    (cacheLookup st.cache features = none →
      ((¬ st.audio.scaler_fitted = true ∨ st.audio.samples.length < 10) →
        (predict_audio_score st features).1 = 0) ∧
      ((¬ st.video.scaler_fitted = true ∨ st.video.samples.length < 10) →
        (predict_video_score st features).1 = 0)) := by
  constructor
  · intro hcache
    constructor
    · cases hl : cacheLookup st.cache features with
      | some v =>
        have hv : (predict_audio_score st features).1 = v := by
          unfold predict_audio_score
          rw [hl]
        rw [hv]
        exact cacheLookup_nonneg hcache hl
      | none =>
        unfold predict_audio_score
        rw [hl]
        dsimp only
        exact le_max_left 0 _
    · cases hl : cacheLookup st.cache features with
      | some v =>
        have hv : (predict_video_score st features).1 = v := by
          unfold predict_video_score
          rw [hl]
        rw [hv]
        exact cacheLookup_nonneg hcache hl
      | none =>
        unfold predict_video_score
        rw [hl]
        dsimp only
        exact le_max_left 0 _
  · intro hmiss
    constructor
    · intro hun
      unfold predict_audio_score
      rw [hmiss]
      dsimp only
      rw [if_pos hun]
      dsimp only
      exact max_self 0
    · intro hun
      unfold predict_video_score
      rw [hmiss]
      dsimp only
      rw [if_pos hun]
      dsimp only
      exact max_self 0

/-- Witness for predict_nonneg_and_zero at the fresh (Untrained) state. -/
theorem predict_nonneg_and_zero_witness :
    0 ≤ (predict_audio_score st0 fA3).1 ∧ (predict_audio_score st0 fA3).1 = 0 :=
  ⟨((predict_nonneg_and_zero st0 fA3).1 (by decide)).1,
   ((predict_nonneg_and_zero st0 fA3).2 (by decide)).1 (by decide)⟩

/-- C4 counterexample: in the reachable trace state stD the audio model is
Untrained (scaler unfitted, zero samples after the reset), yet predicting on
fA3 returns the stale cached score 1 rather than 0.0, because the cache is
consulted before the trained-state check and survives the reset. -/
theorem predict_untrained_stale_cache_cex :
    stD.audio.scaler_fitted = false ∧
    stD.audio.samples.length < 10 ∧
    (predict_audio_score stD fA3).1 = 1 ∧
    (predict_audio_score stD fA3).1 ≠ 0 := by decide

/-- The video half of retrain never touches the audio slot. -/
theorem retrainVideo_audio (fitV : List (List ℚ × ℚ) → Option (List ℚ → ℚ))
    (st : MLModelState) : (retrainVideo fitV st).audio = st.audio := by
  unfold retrainVideo
  by_cases h : 10 ≤ st.video.samples.length
  · rw [if_pos h]
    cases fitV st.video.samples <;> rfl
  · rw [if_neg h]

/-- C6 amended: in MLHighlightModel.retrain the audio block runs first, so a
video fit exception leaves a completed audio retrain in effect (the audio
scaler is marked fitted for any video fit outcome), but an audio fit
exception aborts the method before the video block, leaving the video slot
untouched; and in RatingBasedTrainer.train_from_ratings a fit exception in
either modality aborts the whole call, which returns False and persists
nothing (even a successfully fitted audio model is lost when the video fit
raises). -/
theorem retrain_fit_failure_isolation
    (fitA fitV : List (List ℚ × ℚ) → Option (List ℚ → ℚ))
    (st : MLModelState) (stored : StoredModel)
    (clips : List (List (String × ℚ) × ℤ)) (minS : ℕ) (f : List ℚ → ℚ) :
    (10 ≤ st.audio.samples.length → fitA st.audio.samples = some f →
      (retrain fitA fitV st).audio.scaler_fitted = true) ∧
    (10 ≤ st.audio.samples.length → fitA st.audio.samples = none →
      (retrain fitA fitV st).video = st.video) ∧
    (minS ≤ (prepare_training_data clips).1.length →
      fitA (prepare_training_data clips).1 = none →
      train_from_ratings fitA fitV minS clips stored = (false, stored)) ∧
    (minS ≤ (prepare_training_data clips).1.length →
      fitA (prepare_training_data clips).1 = some f →
      minS ≤ (prepare_training_data clips).2.length →
      fitV (prepare_training_data clips).2 = none →
      train_from_ratings fitA fitV minS clips stored = (false, stored)) := by
  refine ⟨?_, ?_, ?_, ?_⟩
  · intro h10 hA
    unfold retrain
    rw [if_pos h10]
    dsimp only
    rw [hA]
    rw [retrainVideo_audio]
  · intro h10 hA
    unfold retrain
    rw [if_pos h10]
    dsimp only
    rw [hA]
  · intro h10 hA
    unfold train_from_ratings
    dsimp only
    rw [if_pos h10, hA]
  · intro hA10 hA hV10 hV
    unfold train_from_ratings
    dsimp only
    rw [if_pos hA10, hA]
    dsimp only
    unfold trainVideoFromRatings
    rw [if_pos hV10, hV]

/-- Trace state with 10 audio and 10 video samples accumulated. -/
def stG : MLModelState :=
  addSamples (addSamples st0 fA3 10 "audio") fB2 10 "video"

/-- Ten rated clips, five audio and five video, used in the examples. -/
def clipsMix : List (List (String × ℚ) × ℤ) :=
  List.replicate 5 ([("rms_mean", 1)], 3) ++
    List.replicate 5 ([("motion_mean", 1)], 4)

/-- Witness for retrain_fit_failure_isolation: with both modalities at 10
samples, a video fit exception still leaves the audio model trained. -/
theorem retrain_fit_failure_isolation_witness :
    10 ≤ stG.audio.samples.length ∧
    (retrain fitConst fitFail stG).audio.scaler_fitted = true :=
  ⟨by decide,
   (retrain_fit_failure_isolation fitConst fitFail stG freshStoredModel []
     5 (fun _ => 1)).1 (by decide) rfl⟩

/-- C6 counterexample: with 10 audio and 10 video samples, an audio fit
exception prevents the video model from retraining in
MLHighlightModel.retrain (its scaler stays unfitted), and in
train_from_ratings an audio fit exception makes the whole call return False
without training the video model either. -/
theorem retrain_fit_exception_not_isolated_cex :
    10 ≤ stG.audio.samples.length ∧
    10 ≤ stG.video.samples.length ∧
    (retrain fitFail fitConst stG).video.scaler_fitted = false ∧
    (retrain fitFail fitConst stG).video.expected_features = none ∧
    (train_from_ratings fitFail fitConst 5 clipsMix freshStoredModel).1 = false ∧
    (train_from_ratings fitFail fitConst 5 clipsMix
        freshStoredModel).2.video_feature_count = none := by decide

/-- C7 amended: automatic rating-driven retraining fires exactly at
rated-clip counts that are multiples of the cadence 5 AND at least 10 (the
ready_for_training floor): at 10, 15, 20, ... but neither at 5 nor at 6,
11, 16, ...; the manual trigger (train_from_ratings) ignores the cadence
and the total count but still trains a modality only when that modality has
at least minSamples rated samples. -/
theorem auto_train_cadence_spec
    (fitA fitV : List (List ℚ × ℚ) → Option (List ℚ → ℚ)) (minS : ℕ)
    (clips : List (List (String × ℚ) × ℤ)) (stored : StoredModel)
    (f : List ℚ → ℚ) :
    (clips.length < 10 ∨ clips.length % 5 ≠ 0 →
      auto_train_if_ready fitA fitV minS clips stored = false) ∧
    (10 ≤ clips.length → clips.length % 5 = 0 →
      auto_train_if_ready fitA fitV minS clips stored =
        (train_from_ratings fitA fitV minS clips stored).1) ∧
    ((prepare_training_data clips).1.length < minS →
      (train_from_ratings fitA fitV minS clips stored).2.audio_ens =
        stored.audio_ens) ∧
    ((prepare_training_data clips).2.length < minS →
      (train_from_ratings fitA fitV minS clips stored).2.video_ens =
        stored.video_ens) ∧
    (minS ≤ (prepare_training_data clips).1.length →
      fitA (prepare_training_data clips).1 = some f →
      (prepare_training_data clips).2.length < minS →
      (train_from_ratings fitA fitV minS clips stored).1 = true ∧
      (train_from_ratings fitA fitV minS clips stored).2.audio_ens = some f) := by
  refine ⟨?_, ?_, ?_, ?_, ?_⟩
  · intro h
    unfold auto_train_if_ready
    rw [if_neg]
    rintro ⟨h1, h2⟩
    rcases h with h | h
    · omega
    · exact h h2
  · intro h1 h2
    unfold auto_train_if_ready
    rw [if_pos ⟨h1, h2⟩]
  · intro hlt
    unfold train_from_ratings
    dsimp only
    rw [if_neg (not_le.mpr hlt)]
    unfold trainVideoFromRatings
    by_cases hv : minS ≤ (prepare_training_data clips).2.length
    · rw [if_pos hv]
      cases fitV (prepare_training_data clips).2 <;> rfl
    · rw [if_neg hv]
      rfl
  · intro hlt
    unfold train_from_ratings
    dsimp only
    by_cases ha : minS ≤ (prepare_training_data clips).1.length
    · rw [if_pos ha]
      cases hA : fitA (prepare_training_data clips).1 with
      | none => rfl
      | some g =>
        dsimp only
        unfold trainVideoFromRatings
        rw [if_neg (not_le.mpr hlt)]
        rfl
    · rw [if_neg ha]
      unfold trainVideoFromRatings
      rw [if_neg (not_le.mpr hlt)]
      rfl
  · intro hA10 hA hVlt
    unfold train_from_ratings
    dsimp only
    rw [if_pos hA10, hA]
    dsimp only
    unfold trainVideoFromRatings
    rw [if_neg (not_le.mpr hVlt)]
    exact ⟨rfl, rfl⟩

/-- Five rated audio clips used in the cadence examples. -/
def clips5 : List (List (String × ℚ) × ℤ) :=
  List.replicate 5 ([("rms_mean", 1)], 3)

/-- Witness for auto_train_cadence_spec at five rated clips with
minSamples 5: the manual trigger trains, the automatic one does not fire. -/
theorem auto_train_cadence_spec_witness :
    auto_train_if_ready fitConst fitConst 5 clips5 freshStoredModel = false ∧
    (train_from_ratings fitConst fitConst 5 clips5 freshStoredModel).1 = true ∧
    (train_from_ratings fitConst fitConst 5 clips5
        freshStoredModel).2.audio_ens = some (fun _ => 1) :=
  ⟨(auto_train_cadence_spec fitConst fitConst 5 clips5 freshStoredModel
      (fun _ => 1)).1 (Or.inl (by decide)),
   ((auto_train_cadence_spec fitConst fitConst 5 clips5 freshStoredModel
      (fun _ => 1)).2.2.2.2 (by decide) rfl (by decide)).1,
   ((auto_train_cadence_spec fitConst fitConst 5 clips5 freshStoredModel
      (fun _ => 1)).2.2.2.2 (by decide) rfl (by decide)).2⟩

/-- C7 counterexample: at a rated-clip count of exactly 5 (a multiple of the
cadence, sufficient for minSamples 5), the manual trigger trains and returns
True, but auto_train_if_ready does not fire because readiness demands at
least 10 rated clips. -/
theorem auto_train_at_five_cex :
    clips5.length = 5 ∧
    (train_from_ratings fitConst fitConst 5 clips5 freshStoredModel).1 = true ∧
    auto_train_if_ready fitConst fitConst 5 clips5 freshStoredModel = false := by
  decide
